import Mathlib

/-!
Shallow embedding of the restart-advisory engine
(`gpii.psp.baseRestartWarning` and `gpii.psp.restartWarning`) and the
focus-group coordinator (`gpii.app.blurrable`) from this repository,
together with proofs of the documented properties.

JavaScript string-valued fields are modelled by `JStr`, which keeps the
distinction between `undefined`, `null` and a string, because the source
uses strict equality and the Infusion helper `fluid.isValue` (value is
neither `undefined` nor `null`) as well as ordinary truthiness checks.
-/

/-- A JavaScript string-or-missing value: `undefined`, `null`, or a string. -/
inductive JStr where
  | undefined
  | null
  | str (s : String)
deriving DecidableEq, Repr

/-- Embeds `fluid.isValue`: the value is neither `undefined` nor `null`. -/
def isValue : JStr → Bool
  | .undefined => false
  | .null => false
  | .str _ => true

/-- JavaScript truthiness of a `JStr`: only a nonempty string is truthy. -/
def truthy : JStr → Bool
  | .str s => s ≠ ""
  | _ => false

/-- The string carried by a `JStr`, with `""` for the missing cases
(matches how `Array.prototype.join` renders `null` and `undefined`). -/
def jstrText : JStr → String
  | .str s => s
  | _ => ""

/-- The `schema` object of a pending change; only its `title` is read. -/
structure Schema where
  title : JStr
deriving DecidableEq, Repr

/-- A pending setting change, as read by the restart warning: `path`,
`liveness` (a plain string compared against literals in the source),
an optional `solutionName` and an optional `schema` object.  `schema` is
an `Option` because the source reads `pendingChange.schema.title`, which
throws when the `schema` field is missing. -/
structure PendingChange where
  path : String
  liveness : String
  solutionName : JStr
  schema : Option Schema
deriving DecidableEq, Repr

/-- The message catalog of `gpii.psp.baseRestartWarning.model.messages`;
every field defaults to `null` in the source model. -/
structure Messages where
  osName : JStr := .null
  osRestartText : JStr := .null
  restartText : JStr := .null
  undo : JStr := .null
  applyNow : JStr := .null
  restartNow : JStr := .null
deriving DecidableEq, Repr

/-- The push step of the accumulator in `getSolutionsNames`: append the
name when it is a value and not already present (`indexOf < 0`). -/
def pushName (solutionNames : List JStr) (solutionName : JStr) : List JStr :=
  if isValue solutionName && !(solutionNames.contains solutionName) then
    solutionNames ++ [solutionName]
  else
    solutionNames

/-- One iteration of the `fluid.accumulate` body in `getSolutionsNames`:
derive the display name (`solutionName` when it is a value, else
`schema.title`, which throws when `schema` is missing) and push it. -/
def accumStep (solutionNames : List JStr) (pendingChange : PendingChange) :
    Except Unit (List JStr) :=
  if isValue pendingChange.solutionName then
    Except.ok (pushName solutionNames pendingChange.solutionName)
  else
    match pendingChange.schema with
    | some schema => Except.ok (pushName solutionNames schema.title)
    | none => Except.error ()

/-- Embeds `gpii.psp.baseRestartWarning.getSolutionsNames`.  When some
pending change has liveness `"OSRestart"` the result is `[messages.osName]`;
otherwise the display names are accumulated with deduplication.  The
`Except` layer records the `TypeError` thrown by `pendingChange.schema.title`
when `schema` is missing. -/
def getSolutionsNames (messages : Messages) (pendingChanges : List PendingChange) :
    Except Unit (List JStr) :=
  if pendingChanges.any (fun pendingChange => pendingChange.liveness == "OSRestart") then
    Except.ok [messages.osName]
  else
    pendingChanges.foldlM accumStep []

/-- Whether the first list is a prefix of the second, by characters. -/
def isPrefixList : List Char → List Char → Bool
  | [], _ => true
  | _ :: _, [] => false
  | p :: ps, c :: cs => p == c && isPrefixList ps cs

/-- Left-to-right, non-overlapping replacement of every occurrence of
`pattern` by `replacement`, the behaviour of a global-regex
`String.prototype.replace`.  The `Nat` argument counts characters still
to be skipped after a match, keeping the recursion structural. -/
def replaceAux (pattern replacement : List Char) : Nat → List Char → List Char
  | _, [] => []
  | n + 1, _ :: cs => replaceAux pattern replacement n cs
  | 0, c :: cs =>
    if pattern.isEmpty then
      c :: replaceAux pattern replacement 0 cs
    else if isPrefixList pattern (c :: cs) then
      replacement ++ replaceAux pattern replacement (pattern.length - 1) cs
    else
      c :: replaceAux pattern replacement 0 cs

/-- Embeds `fluid.stringTemplate` specialised to the single term
`solutions` used by the source: every occurrence of the `%solutions`
placeholder is replaced by the value. -/
def stringTemplate (template : String) (solutions : String) : String :=
  String.mk (replaceAux "%solutions".toList solutions.toList 0 template.toList)

/-- The `solutionNames.join(", ")` expression from the source. -/
def joinNames (solutionNames : List JStr) : String :=
  String.intercalate ", " (solutionNames.map jstrText)

/-- The JavaScript read `solutionNames[0]`: `undefined` when the list is empty. -/
def jsIndex0 (solutionNames : List JStr) : JStr :=
  solutionNames.headD .undefined

/-- Embeds `gpii.psp.baseRestartWarning.generateRestartText`.  The result
is `undefined` when neither branch returns. -/
def generateRestartText (messages : Messages) (solutionNames : List JStr) : JStr :=
  if jsIndex0 solutionNames = messages.osName then
    messages.osRestartText
  else if truthy messages.restartText then
    .str (stringTemplate (jstrText messages.restartText) (joinNames solutionNames))
  else
    .undefined

/-- Embeds `gpii.psp.baseRestartWarning.generateRestartBtnLabel`. -/
def generateRestartBtnLabel (messages : Messages) (solutionNames : List JStr) : JStr :=
  if jsIndex0 solutionNames = messages.osName then
    messages.restartNow
  else
    messages.applyNow

/-- A node of the settings tree: a `path` and an optional list of nested
settings (`Option` because the source tests `if (setting.settings)`). -/
inductive Setting where
  | mk (path : String) (settings : Option (List Setting))
deriving Repr

/-- The `path` field of a setting. -/
def Setting.path : Setting → String
  | .mk p _ => p

/-- The `settings` field of a setting. -/
def Setting.settings : Setting → Option (List Setting)
  | .mk _ s => s

/-- Embeds `gpii.psp.restartWarning.hasUpdatedSetting`: the `fluid.find_if`
walk over the settings list, descending into `setting.settings` when it is
present and moving on to the next sibling when the recursive search fails. -/
def hasUpdatedSetting (pendingChange : PendingChange) : List Setting → Bool
  | [] => false
  | Setting.mk p subsettings :: rest =>
    if p = pendingChange.path then
      true
    else
      match subsettings with
      | some subs =>
        if hasUpdatedSetting pendingChange subs then
          true
        else
          hasUpdatedSetting pendingChange rest
      | none => hasUpdatedSetting pendingChange rest

/-- Embeds `gpii.psp.restartWarning.getPendingChanges`: filter the pending
changes that apply to the settings group. -/
def getPendingChanges (pendingChanges : List PendingChange) (settings : List Setting) :
    List PendingChange :=
  pendingChanges.filter (fun pendingChange => hasUpdatedSetting pendingChange settings)

/-- All paths occurring anywhere in a settings forest, depth first.  Used
as the specification of the recursive membership test. -/
def allPaths : List Setting → List String
  | [] => []
  | Setting.mk p subsettings :: rest =>
    p :: ((match subsettings with
           | some subs => allPaths subs
           | none => []) ++ allPaths rest)

/-- Embeds `gpii.psp.restartWarning.toggle`: the visibility flag passed to
`container.toggle`. -/
def toggle (solutionNames : List JStr) : Bool :=
  solutionNames.length > 0

/-- Embeds `gpii.app.blurrable`: a window handle seen by the coordinator,
carrying the `gradeNames` tag list attached by `initBlurrable` (absent
when `initBlurrable` was never called for the window). -/
structure Window where
  gradeNames : Option (List String)
deriving DecidableEq, Repr

/-- The tag set of a window: empty when no tags were ever attached. -/
def Window.tags (w : Window) : List String :=
  w.gradeNames.getD []

/-- Embeds `gpii.app.blurrable.initBlurrable`: attaches the grade names of
the component as window parameters. -/
def initBlurrable (gradeNames : List String) (targetWindow : Window) : Window :=
  { targetWindow with gradeNames := some gradeNames }

/-- Embeds `gpii.app.blurrable.onFocusLost`.  The globally focused window
of `BrowserWindow.getFocusedWindow()` is passed explicitly; the result is
the `allowBlur` decision (`true` when the `onBlur` event fires).  The
`some` callback returns `undefined` (falsy) when the focused window or its
`gradeNames` is missing. -/
def onFocusLost (focusedWindow : Option Window) (linkedWindowsGrades : List String) :
    Bool :=
  !(linkedWindowsGrades.any fun linkedWindowGrade =>
      match focusedWindow with
      | some w =>
        match w.gradeNames with
        | some gradeNames => gradeNames.contains linkedWindowGrade
        | none => false
      | none => false)

/-!
Specification-side definitions, written from the words of the design
document, to be compared with the embedded source functions.
-/

/-- The display name of a pending change read off the source expression:
`solutionName` when it is a value, else `schema.title` (rendered as
`undefined` when `schema` is missing, the case in which the source throws
instead). -/
def rawName (pendingChange : PendingChange) : JStr :=
  if isValue pendingChange.solutionName then
    pendingChange.solutionName
  else
    match pendingChange.schema with
    | some schema => schema.title
    | none => .undefined

/-- Per the specification: the derived display name of a pending change,
`none` when the derived name is absent and the change contributes nothing. -/
def specDerivedName (pendingChange : PendingChange) : Option JStr :=
  if isValue (rawName pendingChange) then some (rawName pendingChange) else none

/-- One step of first-seen-order deduplication: append the name only when
it is not already present. -/
def dedupStep (solutionNames : List JStr) (solutionName : JStr) : List JStr :=
  if solutionNames.contains solutionName then solutionNames
  else solutionNames ++ [solutionName]

/-- First-seen-order deduplication of a list of names. -/
def dedupFirstSeen (names : List JStr) : List JStr :=
  names.foldl dedupStep []

/-- Per the specification: the solution names of the non-OS-restart branch,
the deduplicated display names in first-seen order. -/
def specSolutionNames (pendingChanges : List PendingChange) : List JStr :=
  dedupFirstSeen (pendingChanges.filterMap specDerivedName)

/-!
Concrete inputs used by witnesses and counterexamples.
-/

/-- Example catalog with every message populated. -/
def msgsEx : Messages :=
  { osName := .str "Windows"
    osRestartText := .str "Windows needs to restart"
    restartText := .str "To apply your changes, %solutions must be restarted"
    undo := .str "Undo"
    applyNow := .str "Apply"
    restartNow := .str "Restart" }

/-- Scenario 1 of the design document: three application-restart changes
with one duplicated solution name and one title fallback. -/
def pcsEx : List PendingChange :=
  [ { path := "a", liveness := "ApplicationRestart", solutionName := .str "Magnifier",
      schema := some { title := .str "Magnification level" } }
  , { path := "b", liveness := "ApplicationRestart", solutionName := .str "Magnifier",
      schema := some { title := .str "Zoom" } }
  , { path := "c", liveness := "ApplicationRestart", solutionName := .undefined,
      schema := some { title := .str "Zoom Tool" } } ]

/-- A pending change that requires an OS restart, with no display data. -/
def pcOs : PendingChange :=
  { path := "d", liveness := "OSRestart", solutionName := .undefined, schema := none }

/-- A pending change with neither a solution name nor a schema object. -/
def pcNoSchema : PendingChange :=
  { path := "a", liveness := "NoRestart", solutionName := .undefined, schema := none }

/-- A pending change whose application display name coincides with the
configured OS name of `msgsEx`, while only an application restart is
required. -/
def pcOsCollision : PendingChange :=
  { path := "p", liveness := "ApplicationRestart", solutionName := .str "Windows",
    schema := some { title := .str "Contrast" } }

/-- A window tagged as part of the `qss` group. -/
def wQss : Window := { gradeNames := some ["gpii.app.qss", "gpii.app.qssWidget"] }

/-- A window that never went through `initBlurrable`: no tags attached. -/
def wUntagged : Window := { gradeNames := none }

/-- A two-node settings forest with one nested subsetting. -/
def settingsEx : List Setting :=
  [ Setting.mk "http://registry/common/fontSize"
      (some [Setting.mk "http://registry/common/lineSpace" none])
  , Setting.mk "http://registry/common/highContrast" none ]

/-- The second top-level node of `settingsEx` on its own: a sub-list of
the nodes of `settingsEx`. -/
def settingsExSub : List Setting :=
  [ Setting.mk "http://registry/common/highContrast" none ]

/-- A pending change touching the second top-level node of `settingsEx`. -/
def pcContrast : PendingChange :=
  { path := "http://registry/common/highContrast", liveness := "ApplicationRestart",
    solutionName := .str "UIO", schema := some { title := .str "High contrast" } }

/-!
Helper lemmas.
-/

/-- When the display name is computable (a solution name or a schema
object is available), the accumulation step does not throw and pushes the
raw display name. -/
theorem accumStep_ok (acc : List JStr) (pc : PendingChange)
    (h : isValue pc.solutionName = true ∨ pc.schema.isSome = true) :
    accumStep acc pc = Except.ok (pushName acc (rawName pc)) := by
  unfold accumStep rawName
  rcases h with h | h
  · simp [h]
  · cases hs : pc.schema with
    | none => rw [hs] at h; simp at h
    | some schema => cases hv : isValue pc.solutionName <;> simp [hv, hs]

/-- The monadic fold of `getSolutionsNames` never throws when every change
has a computable display name, and equals the corresponding pure fold. -/
theorem foldlM_accumStep (pcs : List PendingChange) (acc : List JStr)
    (h : ∀ pc ∈ pcs, isValue pc.solutionName = true ∨ pc.schema.isSome = true) :
    pcs.foldlM accumStep acc =
      Except.ok (pcs.foldl (fun a pc => pushName a (rawName pc)) acc) := by
  induction pcs generalizing acc with
  | nil => rfl
  | cons pc rest ih =>
    have h1 := h pc (List.mem_cons_self pc rest)
    have h2 : ∀ q ∈ rest, isValue q.solutionName = true ∨ q.schema.isSome = true :=
      fun q hq => h q (List.mem_cons_of_mem pc hq)
    rw [List.foldlM_cons, accumStep_ok acc pc h1]
    simp only [List.foldl_cons]
    rw [← ih (pushName acc (rawName pc)) h2]
    rfl

/-- The push step of the source is the deduplication step guarded by
`fluid.isValue`. -/
theorem pushName_eq (acc : List JStr) (n : JStr) :
    pushName acc n = if isValue n then dedupStep acc n else acc := by
  unfold pushName dedupStep
  cases hv : isValue n <;> cases hc : acc.contains n <;> simp [hv, hc]

/-- The pure fold of the source equals first-seen deduplication of the
derived display names. -/
theorem foldl_pushName (pcs : List PendingChange) (acc : List JStr) :
    pcs.foldl (fun a pc => pushName a (rawName pc)) acc =
      (pcs.filterMap specDerivedName).foldl dedupStep acc := by
  induction pcs generalizing acc with
  | nil => rfl
  | cons pc rest ih =>
    simp only [List.foldl_cons, List.filterMap_cons]
    cases hv : isValue (rawName pc) with
    | true =>
      have hstep : pushName acc (rawName pc) = dedupStep acc (rawName pc) := by
        simp [pushName_eq, hv]
      have hsd : specDerivedName pc = some (rawName pc) := by
        simp [specDerivedName, hv]
      rw [hstep, hsd]
      simp only [List.foldl_cons]
      exact ih (dedupStep acc (rawName pc))
    | false =>
      have hstep : pushName acc (rawName pc) = acc := by
        simp [pushName_eq, hv]
      have hsd : specDerivedName pc = none := by
        simp [specDerivedName, hv]
      rw [hstep, hsd]
      exact ih acc

/-- First-seen deduplication preserves freedom from duplicates. -/
theorem foldl_dedupStep_nodup (names : List JStr) (acc : List JStr) (h : acc.Nodup) :
    (names.foldl dedupStep acc).Nodup := by
  induction names generalizing acc with
  | nil => exact h
  | cons n rest ih =>
    simp only [List.foldl_cons]
    apply ih
    unfold dedupStep
    cases hc : acc.contains n with
    | true => exact h
    | false =>
      have hn : n ∉ acc := by simpa using hc
      simp [List.nodup_append, h, hn]

/-- The recursive membership walk of the source finds a pending change
exactly when its path occurs somewhere in the settings forest. -/
theorem hasUpdatedSetting_iff (pendingChange : PendingChange) (settings : List Setting) :
    hasUpdatedSetting pendingChange settings = true ↔
      pendingChange.path ∈ allPaths settings := by
  induction settings using hasUpdatedSetting.induct with
  | pendingChange => exact pendingChange
  | case1 => simp [hasUpdatedSetting, allPaths]
  | case2 subsettings rest => cases subsettings <;> simp [hasUpdatedSetting, allPaths]
  | case3 p rest hp subs hsubs ih =>
    simp only [hasUpdatedSetting, allPaths, if_neg hp, hsubs, if_true]
    constructor
    · intro _
      exact List.mem_cons_of_mem p (List.mem_append_left _ (ih.mp hsubs))
    · intro _
      trivial
  | case4 p rest hp subs hsubs ihsubs ihrest =>
    have hsubs2 : hasUpdatedSetting pendingChange subs = false := by
      cases hval : hasUpdatedSetting pendingChange subs
      · rfl
      · exact absurd hval hsubs
    simp only [hasUpdatedSetting, allPaths, if_neg hp, hsubs2, Bool.false_eq_true, if_false]
    constructor
    · intro h
      exact List.mem_cons_of_mem p (List.mem_append_right _ (ihrest.mp h))
    · intro h
      rcases List.mem_cons.mp h with heq | hmem
      · exact absurd heq.symm hp
      · rcases List.mem_append.mp hmem with h1 | h2
        · exact absurd (ihsubs.mpr h1) hsubs
        · exact ihrest.mpr h2
  | case5 p rest hp ihrest =>
    simp only [hasUpdatedSetting, allPaths, if_neg hp, List.nil_append]
    constructor
    · intro h
      exact List.mem_cons_of_mem p (ihrest.mp h)
    · intro h
      rcases List.mem_cons.mp h with heq | hmem
      · exact absurd heq.symm hp
      · exact ihrest.mpr hmem

/-- Depth-first path collection is monotone along sub-lists of nodes. -/
theorem allPaths_sublist {s₁ s₂ : List Setting} (h : s₁.Sublist s₂) :
    (allPaths s₁).Sublist (allPaths s₂) := by
  induction h with
  | slnil => exact List.Sublist.refl _
  | cons a h ih =>
    cases a with
    | mk p subsettings =>
      cases subsettings <;> simp only [allPaths] <;>
        exact ih.trans ((List.sublist_append_right _ _).trans (List.sublist_cons_self p _))
  | cons₂ a h ih =>
    cases a with
    | mk p subsettings =>
      cases subsettings <;> simp only [allPaths] <;>
        exact List.Sublist.cons₂ p (List.Sublist.append_left ih _)

/-- Dropping the elements on which an option-valued map is `none` does not
change its `filterMap`. -/
theorem filterMap_filter_isSome {α β : Type} (f : α → Option β) (l : List α) :
    (l.filter (fun a => (f a).isSome)).filterMap f = l.filterMap f := by
  induction l with
  | nil => rfl
  | cons a t ih =>
    cases hf : f a <;> simp [List.filter_cons, List.filterMap_cons, hf, ih]

/-- The membership walk as a decidable membership in the collected paths. -/
theorem hasUpdatedSetting_eq_decide (pendingChange : PendingChange)
    (settings : List Setting) :
    hasUpdatedSetting pendingChange settings =
      decide (pendingChange.path ∈ allPaths settings) := by
  cases hb : hasUpdatedSetting pendingChange settings
  · have hnm : pendingChange.path ∉ allPaths settings := fun hm => by
      rw [(hasUpdatedSetting_iff pendingChange settings).mpr hm] at hb
      cases hb
    simp [hnm]
  · simp [(hasUpdatedSetting_iff pendingChange settings).mp hb]

/-- An OS-restart entry makes the `fluid.find_if` scan succeed. -/
theorem any_osRestart_of_mem {pendingChanges : List PendingChange}
    (h : ∃ pc ∈ pendingChanges, pc.liveness = "OSRestart") :
    pendingChanges.any (fun pc => pc.liveness == "OSRestart") = true := by
  rcases h with ⟨pc, hmem, hl⟩
  exact List.any_eq_true.mpr ⟨pc, hmem, by simp [hl]⟩

/-- Without an OS-restart entry the `fluid.find_if` scan fails. -/
theorem any_osRestart_eq_false {pendingChanges : List PendingChange}
    (h : ∀ pc ∈ pendingChanges, pc.liveness ≠ "OSRestart") :
    pendingChanges.any (fun pc => pc.liveness == "OSRestart") = false := by
  rw [List.any_eq_false]
  intro pc hmem
  simp [h pc hmem]

/-- Characterization of the accumulation branch: with no OS-restart entry
and every display name computable, `getSolutionsNames` is the first-seen
deduplication of the derived display names. -/
theorem getSolutionsNames_spec_eq (messages : Messages)
    (pendingChanges : List PendingChange)
    (hos : ∀ pc ∈ pendingChanges, pc.liveness ≠ "OSRestart")
    (hwf : ∀ pc ∈ pendingChanges,
      isValue pc.solutionName = true ∨ pc.schema.isSome = true) :
    getSolutionsNames messages pendingChanges =
      Except.ok (specSolutionNames pendingChanges) := by
  unfold getSolutionsNames
  rw [any_osRestart_eq_false hos]
  simp only [Bool.false_eq_true, if_false]
  rw [foldlM_accumStep _ _ hwf, foldl_pushName]
  rfl

/-!
Claim theorems.
-/

/-- C1: for every message catalog and every pending-change sequence with
at least one element of liveness `OSRestart`, `getSolutionsNames` returns
exactly the single-element sequence `[messages.osName]`, regardless of the
other pending changes. -/
theorem c1_osRestart_precedence (messages : Messages)
    (pendingChanges : List PendingChange)
    (h : ∃ pc ∈ pendingChanges, pc.liveness = "OSRestart") :
    getSolutionsNames messages pendingChanges = Except.ok [messages.osName] := by
  unfold getSolutionsNames
  simp [any_osRestart_of_mem h]

/-- Witness for C1 at a concrete OS-restart change. -/
theorem c1_witness :
    getSolutionsNames msgsEx [pcOs, pcContrast] = Except.ok [msgsEx.osName] :=
  c1_osRestart_precedence msgsEx [pcOs, pcContrast]
    ⟨pcOs, by simp, rfl⟩

/-- C3: with no OS-restart entry (and, per the data model, a schema object
available whenever the solution name is absent), `getSolutionsNames`
returns the first-seen-order deduplication of the derived display names,
and the result holds no duplicate entries. -/
theorem c3_dedup_first_seen (messages : Messages)
    (pendingChanges : List PendingChange)
    (hos : ∀ pc ∈ pendingChanges, pc.liveness ≠ "OSRestart")
    (hwf : ∀ pc ∈ pendingChanges,
      isValue pc.solutionName = true ∨ pc.schema.isSome = true) :
    getSolutionsNames messages pendingChanges =
      Except.ok (specSolutionNames pendingChanges)
    ∧ (specSolutionNames pendingChanges).Nodup :=
  ⟨getSolutionsNames_spec_eq messages pendingChanges hos hwf,
   foldl_dedupStep_nodup _ _ List.nodup_nil⟩

/-- Witness for C3 at the three-change scenario of the design document. -/
theorem c3_witness :
    getSolutionsNames msgsEx pcsEx = Except.ok (specSolutionNames pcsEx)
    ∧ (specSolutionNames pcsEx).Nodup :=
  c3_dedup_first_seen msgsEx pcsEx (by decide) (by decide)

/-- C4: `getPendingChanges` is exactly the order-preserving filter of the
pending changes whose path occurs somewhere in the settings forest. -/
theorem c4_scope_filter (pendingChanges : List PendingChange)
    (settings : List Setting) :
    getPendingChanges pendingChanges settings =
      pendingChanges.filter (fun pc => decide (pc.path ∈ allPaths settings))
    ∧ (getPendingChanges pendingChanges settings).Sublist pendingChanges := by
  constructor
  · unfold getPendingChanges
    exact List.filter_congr fun pc _ => hasUpdatedSetting_eq_decide pc settings
  · exact List.filter_sublist _

/-- C9: scoping to a sub-list of the settings nodes never includes a
pending change excluded when scoping to the full list. -/
theorem c9_filter_monotone (pc : PendingChange)
    (pendingChanges : List PendingChange) (s₁ s₂ : List Setting)
    (hsub : s₁.Sublist s₂)
    (hmem : pc ∈ getPendingChanges pendingChanges s₁) :
    pc ∈ getPendingChanges pendingChanges s₂ := by
  unfold getPendingChanges at hmem ⊢
  rcases List.mem_filter.mp hmem with ⟨hpc, hupd⟩
  refine List.mem_filter.mpr ⟨hpc, ?_⟩
  have hp : pc.path ∈ allPaths s₁ := (hasUpdatedSetting_iff pc s₁).mp hupd
  exact (hasUpdatedSetting_iff pc s₂).mpr ((allPaths_sublist hsub).subset hp)

/-- Witness for C9: the sub-list of `settingsEx` holding only its second
node still scopes in the contrast change, hence so does the full list. -/
theorem c9_witness :
    pcContrast ∈ getPendingChanges [pcContrast] settingsEx :=
  c9_filter_monotone pcContrast [pcContrast] settingsExSub settingsEx
    (by unfold settingsEx settingsExSub
        exact List.Sublist.cons _ (List.Sublist.refl _))
    (by simp [getPendingChanges, hasUpdatedSetting, settingsExSub, pcContrast,
              List.filter])

/-- C2: the blur is emitted whenever no window is focused or the focused
window carries no tag of `linkedWindowsGrades`, and suppressed whenever
some tag overlaps; the absent-focus case defaults to allowing the blur. -/
theorem c2_onFocusLost_spec (focusedWindow : Option Window)
    (linkedWindowsGrades : List String) :
    (focusedWindow = none →
      onFocusLost focusedWindow linkedWindowsGrades = true)
    ∧ (∀ w, focusedWindow = some w →
        (∀ g ∈ linkedWindowsGrades, g ∉ w.tags) →
        onFocusLost focusedWindow linkedWindowsGrades = true)
    ∧ (∀ w, focusedWindow = some w →
        (∃ g ∈ linkedWindowsGrades, g ∈ w.tags) →
        onFocusLost focusedWindow linkedWindowsGrades = false) := by
  refine ⟨?_, ?_, ?_⟩
  · intro h
    subst h
    unfold onFocusLost
    simp
  · intro w h hdisj
    subst h
    unfold onFocusLost
    simp only [Bool.not_eq_true']
    rw [List.any_eq_false]
    intro g hg
    cases hgn : w.gradeNames with
    | none => simp
    | some gradeNames =>
      have hnm : g ∉ gradeNames := by
        have := hdisj g hg
        rw [Window.tags, hgn] at this
        exact this
      simpa using hnm
  · intro w h hov
    subst h
    rcases hov with ⟨g, hg, hmem⟩
    unfold onFocusLost
    cases hgn : w.gradeNames with
    | none =>
      rw [Window.tags, hgn] at hmem
      cases hmem
    | some gradeNames =>
      rw [Window.tags, hgn] at hmem
      have hany : (List.any linkedWindowsGrades fun linkedWindowGrade =>
          match some w with
          | some w =>
            match w.gradeNames with
            | some gradeNames => gradeNames.contains linkedWindowGrade
            | none => false
          | none => false) = true := by
        refine List.any_eq_true.mpr ⟨g, hg, ?_⟩
        simp only [hgn]
        simpa using hmem
      rw [hany]
      rfl

/-- Witness for C2: absent focus allows the blur, a window tagged with a
linked grade suppresses it. -/
theorem c2_witness :
    onFocusLost none ["gpii.app.qss"] = true
    ∧ onFocusLost (some wQss) ["gpii.app.qss"] = false :=
  ⟨(c2_onFocusLost_spec none ["gpii.app.qss"]).1 rfl,
   (c2_onFocusLost_spec (some wQss) ["gpii.app.qss"]).2.2 wQss rfl
     ⟨"gpii.app.qss", by decide, by decide⟩⟩

/-- C10: a focused window with no attached tag list never suppresses the
blur, and an empty `linkedWindowsGrades` configuration always allows it. -/
theorem c10_untagged_allows (focusedWindow : Option Window) (w : Window)
    (linkedWindowsGrades : List String) :
    (w.gradeNames = none →
      onFocusLost (some w) linkedWindowsGrades = true)
    ∧ onFocusLost focusedWindow [] = true := by
  constructor
  · intro hgn
    unfold onFocusLost
    simp only [Bool.not_eq_true']
    rw [List.any_eq_false]
    intro g _
    simp [hgn]
  · rfl

/-- Witness for C10: an untagged window and an empty linked set. -/
theorem c10_witness :
    onFocusLost (some wUntagged) ["gpii.app.qss"] = true
    ∧ onFocusLost (some wQss) [] = true :=
  ⟨(c10_untagged_allows (some wUntagged) wUntagged ["gpii.app.qss"]).1 rfl,
   (c10_untagged_allows (some wQss) wUntagged []).2⟩

/-- C5 counterexample: a well-typed pending change with neither a solution
name nor a schema object makes `getSolutionsNames` throw (the source reads
`pendingChange.schema.title` on a missing `schema`), instead of the change
contributing nothing and the computation continuing. -/
theorem c5_counterexample :
    getSolutionsNames msgsEx [pcNoSchema] = Except.error () := rfl

/-- C5 amended: `getSolutionsNames` does not throw provided every pending
change has a solution name or a schema object; under that proviso a change
whose derived display name is absent contributes nothing: deleting all such
changes leaves the result unchanged (stated for the accumulation branch). -/
theorem c5_no_throw (messages : Messages) (pendingChanges : List PendingChange)
    (hwf : ∀ pc ∈ pendingChanges,
      isValue pc.solutionName = true ∨ pc.schema.isSome = true) :
    (∃ names, getSolutionsNames messages pendingChanges = Except.ok names)
    ∧ ((∀ pc ∈ pendingChanges, pc.liveness ≠ "OSRestart") →
        getSolutionsNames messages pendingChanges =
          getSolutionsNames messages
            (pendingChanges.filter (fun pc => (specDerivedName pc).isSome))) := by
  constructor
  · cases hany : pendingChanges.any (fun pc => pc.liveness == "OSRestart") with
    | true =>
      refine ⟨[messages.osName], ?_⟩
      unfold getSolutionsNames
      rw [hany]
      simp
    | false =>
      refine ⟨pendingChanges.foldl (fun a pc => pushName a (rawName pc)) [], ?_⟩
      unfold getSolutionsNames
      rw [hany]
      simp only [Bool.false_eq_true, if_false]
      exact foldlM_accumStep _ _ hwf
  · intro hos
    have hwf2 : ∀ pc ∈ pendingChanges.filter (fun pc => (specDerivedName pc).isSome),
        isValue pc.solutionName = true ∨ pc.schema.isSome = true :=
      fun pc hpc => hwf pc (List.mem_filter.mp hpc).1
    have hos2 : ∀ pc ∈ pendingChanges.filter (fun pc => (specDerivedName pc).isSome),
        pc.liveness ≠ "OSRestart" :=
      fun pc hpc => hos pc (List.mem_filter.mp hpc).1
    rw [getSolutionsNames_spec_eq messages pendingChanges hos hwf,
        getSolutionsNames_spec_eq messages _ hos2 hwf2]
    unfold specSolutionNames
    rw [filterMap_filter_isSome]

/-- Witness for C5 at the three-change scenario, where a change with an
absent solution name falls back to its schema title without throwing. -/
theorem c5_witness :
    (∃ names, getSolutionsNames msgsEx pcsEx = Except.ok names)
    ∧ getSolutionsNames msgsEx pcsEx =
        getSolutionsNames msgsEx
          (pcsEx.filter (fun pc => (specDerivedName pc).isSome)) :=
  ⟨(c5_no_throw msgsEx pcsEx (by decide)).1,
   (c5_no_throw msgsEx pcsEx (by decide)).2 (by decide)⟩

/-- C6 counterexample: with the populated catalog `msgsEx` and an empty
`solutionNames`, the advisory is hidden but neither derived text field is
absent: the restart text is the template with an empty substitution and
the button label is `applyNow`. -/
theorem c6_counterexample :
    toggle [] = false
    ∧ generateRestartText msgsEx [] =
        .str "To apply your changes,  must be restarted"
    ∧ generateRestartText msgsEx [] ≠ .undefined
    ∧ generateRestartBtnLabel msgsEx [] = .str "Apply"
    ∧ generateRestartBtnLabel msgsEx [] ≠ .undefined := by
  decide

/-- C6 amended: the visibility flag always equals `length > 0`, so an
empty `solutionNames` hides the advisory; the text fields however are not
forced absent: with empty names (and a proper OS name) the button label is
`messages.applyNow`, and the restart text is the template with the empty
joined list substituted when the template is truthy, absent only when the
template is not. -/
theorem c6_amended (messages : Messages) (solutionNames : List JStr) :
    toggle solutionNames = decide (solutionNames.length > 0)
    ∧ (solutionNames = [] →
        toggle solutionNames = false
        ∧ (isValue messages.osName = true →
            generateRestartBtnLabel messages solutionNames = messages.applyNow
            ∧ (truthy messages.restartText = true →
                generateRestartText messages solutionNames =
                  .str (stringTemplate (jstrText messages.restartText) ""))
            ∧ (truthy messages.restartText = false →
                generateRestartText messages solutionNames = .undefined))) := by
  refine ⟨rfl, ?_⟩
  rintro rfl
  refine ⟨rfl, ?_⟩
  intro hos
  have hne : jsIndex0 ([] : List JStr) ≠ messages.osName := by
    cases hmo : messages.osName with
    | str s => intro hcontra; cases hcontra
    | undefined => rw [hmo] at hos; cases hos
    | null => rw [hmo] at hos; cases hos
  refine ⟨?_, ?_, ?_⟩
  · unfold generateRestartBtnLabel
    rw [if_neg hne]
  · intro ht
    have hj : joinNames ([] : List JStr) = "" := by decide
    unfold generateRestartText
    rw [if_neg hne, if_pos ht, hj]
  · intro ht
    unfold generateRestartText
    rw [if_neg hne, if_neg (by simp [ht])]

/-- Witness for C6 at the populated catalog and empty name list. -/
theorem c6_witness :
    toggle [] = false
    ∧ generateRestartBtnLabel msgsEx [] = msgsEx.applyNow
    ∧ generateRestartText msgsEx [] =
        .str (stringTemplate (jstrText msgsEx.restartText) "") :=
  ⟨((c6_amended msgsEx []).2 rfl).1,
   (((c6_amended msgsEx []).2 rfl).2 (by decide)).1,
   ((((c6_amended msgsEx []).2 rfl).2 (by decide)).2).1 (by decide)⟩

/-- C7 counterexample: an application-restart change whose display name
coincides with the configured OS name takes the `restartNow` label even
though the OS-restart branch was not taken, refuting the claimed
equivalence. -/
theorem c7_counterexample :
    ([pcOsCollision].any fun pc => pc.liveness == "OSRestart") = false
    ∧ getSolutionsNames msgsEx [pcOsCollision] =
        Except.ok [JStr.str "Windows"]
    ∧ generateRestartBtnLabel msgsEx [JStr.str "Windows"] = msgsEx.restartNow
    ∧ msgsEx.restartNow ≠ msgsEx.applyNow :=
  ⟨rfl, rfl, rfl, by decide⟩

/-- C7 amended: the label is `messages.restartNow` whenever the OS-restart
branch was taken, and `messages.applyNow` whenever the first solution name
differs from `messages.osName`; a coincidence of the first application
display name with the OS name also yields `restartNow`. -/
theorem c7_amended (messages : Messages) (pendingChanges : List PendingChange)
    (names : List JStr)
    (hok : getSolutionsNames messages pendingChanges = Except.ok names) :
    ((∃ pc ∈ pendingChanges, pc.liveness = "OSRestart") →
      generateRestartBtnLabel messages names = messages.restartNow)
    ∧ (jsIndex0 names ≠ messages.osName →
      generateRestartBtnLabel messages names = messages.applyNow) := by
  constructor
  · intro hos
    unfold getSolutionsNames at hok
    rw [any_osRestart_of_mem hos] at hok
    simp only [if_true] at hok
    have hn : names = [messages.osName] := by
      cases hok
      rfl
    rw [hn]
    unfold generateRestartBtnLabel jsIndex0
    simp
  · intro hne
    unfold generateRestartBtnLabel
    rw [if_neg hne]

/-- Witness for C7: the OS-restart branch labels the button `restartNow`,
the plain scenario labels it `applyNow`. -/
theorem c7_witness :
    generateRestartBtnLabel msgsEx [msgsEx.osName] = msgsEx.restartNow
    ∧ generateRestartBtnLabel msgsEx
        [JStr.str "Magnifier", JStr.str "Zoom Tool"] = msgsEx.applyNow :=
  ⟨(c7_amended msgsEx [pcOs] [msgsEx.osName] rfl).1 ⟨pcOs, by simp, rfl⟩,
   (c7_amended msgsEx pcsEx [JStr.str "Magnifier", JStr.str "Zoom Tool"]
     rfl).2 (by decide)⟩

/-- C8: `generateRestartText` returns `osRestartText` verbatim when the
first solution name equals `osName`; otherwise it substitutes the joined
names into the `restartText` template when that template is truthy, and
returns `undefined` when it is not. -/
theorem c8_restartText_spec (messages : Messages) (solutionNames : List JStr) :
    (jsIndex0 solutionNames = messages.osName →
      generateRestartText messages solutionNames = messages.osRestartText)
    ∧ (jsIndex0 solutionNames ≠ messages.osName →
        truthy messages.restartText = true →
        generateRestartText messages solutionNames =
          .str (stringTemplate (jstrText messages.restartText)
                  (joinNames solutionNames)))
    ∧ (jsIndex0 solutionNames ≠ messages.osName →
        truthy messages.restartText = false →
        generateRestartText messages solutionNames = .undefined) := by
  refine ⟨?_, ?_, ?_⟩
  · intro h
    unfold generateRestartText
    rw [if_pos h]
  · intro h ht
    unfold generateRestartText
    rw [if_neg h, if_pos ht]
  · intro h ht
    unfold generateRestartText
    rw [if_neg h, if_neg (by simp [ht])]

/-- Witness for C8: the three branches at concrete inputs. -/
theorem c8_witness :
    generateRestartText msgsEx [msgsEx.osName] = msgsEx.osRestartText
    ∧ generateRestartText msgsEx [JStr.str "Magnifier", JStr.str "Zoom Tool"] =
        .str "To apply your changes, Magnifier, Zoom Tool must be restarted"
    ∧ generateRestartText { msgsEx with restartText := JStr.null }
        [JStr.str "Magnifier"] = .undefined := by
  refine ⟨(c8_restartText_spec msgsEx [msgsEx.osName]).1 (by decide), ?_, ?_⟩
  · have h := (c8_restartText_spec msgsEx
      [JStr.str "Magnifier", JStr.str "Zoom Tool"]).2.1 (by decide) (by decide)
    rw [h]
    decide
  · exact (c8_restartText_spec { msgsEx with restartText := JStr.null }
      [JStr.str "Magnifier"]).2.2 (by decide) (by decide)
